import Mathlib

/-!
# todoapp-golang: the task store of `src/todolist/app.go`

A shallow embedding of the four operations `AddTask`, `GetTasks`,
`ToggleTaskCompletion` and `DeleteTask`, of the table they work on, and of the
pieces of the Go standard library (`time`, `fmt`) they call.

Go strings are `String`; Go `int`/`int64` values are `Int`, with the 64-bit
bound written out where the store depends on it. The state of the program is
passed explicitly: each operation takes an `App` and returns its result
together with the `App` after it. What the database driver adds to the SQL of
the program is a parameter, `Driver`.
-/

namespace TodoApp

/-! # Definitions -/

/-! ## The `time` package -/

/-- A `time.Time`: an instant (seconds since the Unix epoch and nanoseconds
within the second) together with the fixed offset of its location, in seconds
east of UTC. -/
structure Time where
  sec : Int
  nsec : Nat
  offset : Int
deriving DecidableEq, Repr

/-- The method `Time.Before`: the instant of `t` is strictly before that of `u`.
Locations play no part. -/
def Time.Before (t u : Time) : Bool :=
  decide (t.sec < u.sec) || (decide (t.sec = u.sec) && decide (t.nsec < u.nsec))

/-- The leap year rule of the proleptic Gregorian calendar (`time.isLeap`). -/
def isLeap (year : Int) : Bool :=
  decide (year % 4 = 0) && (decide (year % 100 ≠ 0) || decide (year % 400 = 0))

/-- Number of days of a month of a year (`time.daysIn`). -/
def daysIn (month : Nat) (year : Int) : Nat :=
  if month = 2 then (if isLeap year then 29 else 28)
  else if month = 4 ∨ month = 6 ∨ month = 9 ∨ month = 11 then 30
  else 31

/-- Days of a non-leap year before the first of a month (`time.daysBefore`). -/
def daysBefore (month : Nat) : Int :=
  match month with
  | 1 => 0
  | 2 => 31
  | 3 => 59
  | 4 => 90
  | 5 => 120
  | 6 => 151
  | 7 => 181
  | 8 => 212
  | 9 => 243
  | 10 => 273
  | 11 => 304
  | 12 => 334
  | _ => 365

/-- Days from 1970-01-01 to the first of January of `year`. -/
def daysBeforeYear (year : Int) : Int :=
  365 * (year - 1970) + ((year - 1) / 4 - (year - 1) / 100 + (year - 1) / 400) - 477

/-- Days from 1970-01-01 to the civil date year-month-day, as `time.Date`
computes them: whole years, then whole months, the leap day, then days. -/
def daysSinceEpoch (year : Int) (month day : Nat) : Int :=
  daysBeforeYear year + daysBefore month
    + (if isLeap year ∧ 3 ≤ month then 1 else 0) + ((day : Int) - 1)

/-- Seconds of a day. -/
def secondsPerDay : Int := 86400

/-- A civil date: year, month, day. -/
structure Civil where
  year : Int
  month : Nat
  day : Nat
deriving DecidableEq, Repr

/-- The day number of a civil date. -/
def Civil.dayNumber (c : Civil) : Int := daysSinceEpoch c.year c.month c.day

/-- The year of a day number and the day within that year, counted from 0, as
package time finds them: 400-year cycles are cut off, then 100-year cycles (at
most three), then 4-year cycles, then years (at most three). -/
def yearOfDay (n : Int) : Int × Int :=
  let d0 := n + 719162
  let n400 := d0 / 146097
  let d1 := d0 % 146097
  let n100 := min (d1 / 36524) 3
  let d2 := d1 - 36524 * n100
  let n4 := d2 / 1461
  let d3 := d2 % 1461
  let n1 := min (d3 / 365) 3
  (400 * n400 + 100 * n100 + 4 * n4 + n1 + 1, d3 - 365 * n1)

/-- Month and day of month of a day within a non-leap year: the month is
estimated as if every month had 31 days and moved on by one where the estimate
is short. -/
def monthDayPlain (day : Int) : Nat × Nat :=
  let month := (day / 31).toNat
  if daysBefore (month + 2) ≤ day then (month + 2, (day - daysBefore (month + 2) + 1).toNat)
  else (month + 1, (day - daysBefore (month + 1) + 1).toNat)

/-- Month and day of month of a day within a year: the leap day is singled out
and the days after it are moved back by one. -/
def monthDay (leap : Bool) (yday : Int) : Nat × Nat :=
  if leap ∧ yday = 59 then (2, 29)
  else monthDayPlain (if leap ∧ 59 < yday then yday - 1 else yday)

/-- The civil date of a day number. -/
def civilOfDay (n : Int) : Civil :=
  let yd := yearOfDay n
  let md := monthDay (isLeap yd.1) yd.2
  { year := yd.1, month := md.1, day := md.2 }

/-- The day number (days since 1970-01-01) of the civil date that `t` shows in
its own location. -/
def Time.localDay (t : Time) : Int := (t.sec + t.offset) / secondsPerDay

/-- The methods `Year`, `Month` and `Day` of a time, together: the civil date
it shows in its own location. -/
def Time.civil (t : Time) : Civil := civilOfDay t.localDay

/-- The value of `time.Date(year, month, day, 0, 0, 0, 0, loc)` for a location
of fixed offset: midnight of that civil date there. -/
def Date (c : Civil) (offset : Int) : Time :=
  { sec := c.dayNumber * secondsPerDay - offset, nsec := 0, offset := offset }

/-- The value of
`time.Date(now.Year(), now.Month(), now.Day(), 0, 0, 0, 0, now.Location())`. -/
def midnightOf (now : Time) : Time := Date now.civil now.offset

/-! ### `time.Parse("2006-01-02", s)` -/

/-- Value of a decimal digit character. -/
def digitVal (c : Char) : Nat := c.toNat - 48

/-- The chunk `2006` of a layout: exactly four digits. -/
def getYear4 : List Char → Option (Nat × List Char)
  | a :: b :: c :: d :: rest =>
    if a.isDigit && b.isDigit && c.isDigit && d.isDigit then
      some (digitVal a * 1000 + digitVal b * 100 + digitVal c * 10 + digitVal d, rest)
    else none
  | _ => none

/-- The helper `getnum(s, fixed = true)` of package time: exactly two digits. -/
def getnum2 : List Char → Option (Nat × List Char)
  | a :: b :: rest =>
    if a.isDigit && b.isDigit then some (digitVal a * 10 + digitVal b, rest) else none
  | _ => none

/-- A literal `-` of the layout. -/
def skipDash : List Char → Option (List Char)
  | c :: rest => if c = '-' then some rest else none
  | [] => none

/-- The fields that `time.Parse("2006-01-02", s)` reads, or `none` where it
returns an error: four digits of year, `-`, two digits of month in 1..12, `-`,
two digits of day, no text after them, and the day within the month. -/
def parseCivil (s : String) : Option Civil :=
  match getYear4 s.data with
  | none => none
  | some (y, v) =>
    match skipDash v with
    | none => none
    | some v =>
      match getnum2 v with
      | none => none
      | some (m, v) =>
        if m = 0 ∨ 12 < m then none
        else
          match skipDash v with
          | none => none
          | some v =>
            match getnum2 v with
            | none => none
            | some (d, v) =>
              if v ≠ [] then none
              else if d < 1 ∨ daysIn m y < d then none
              else some { year := y, month := m, day := d }

/-- The function `time.Parse("2006-01-02", s)`: midnight UTC of the date read. -/
def parseDate (s : String) : Option Time :=
  (parseCivil s).map fun c => { sec := c.dayNumber * secondsPerDay, nsec := 0, offset := 0 }

/-- The text of a date in the form YYYY-MM-DD: four digits, a dash, two digits,
a dash, two digits, with the month from 1 to 12 and the day within the month. -/
def IsDateText (s : String) (c : Civil) : Prop :=
  ∃ y1 y2 y3 y4 m1 m2 d1 d2 : Char,
    s.data = [y1, y2, y3, y4, '-', m1, m2, '-', d1, d2] ∧
    (y1.isDigit = true ∧ y2.isDigit = true ∧ y3.isDigit = true ∧ y4.isDigit = true) ∧
    (m1.isDigit = true ∧ m2.isDigit = true) ∧ (d1.isDigit = true ∧ d2.isDigit = true) ∧
    c = { year := ((digitVal y1 * 1000 + digitVal y2 * 100 + digitVal y3 * 10 + digitVal y4 : Nat) : Int),
          month := digitVal m1 * 10 + digitVal m2, day := digitVal d1 * 10 + digitVal d2 } ∧
    1 ≤ c.month ∧ c.month ≤ 12 ∧ 1 ≤ c.day ∧ c.day ≤ daysIn c.month c.year

/-! ## The `fmt` package -/

/-- The character of a decimal digit. -/
def digitChar (d : Nat) : Char := Char.ofNat (48 + d)

/-- Decimal digits of `n`, most significant first; `fuel` bounds their number. -/
def natDigits : Nat → Nat → List Char
  | 0, _ => []
  | fuel + 1, n =>
    if n < 10 then [digitChar n] else natDigits fuel (n / 10) ++ [digitChar (n % 10)]

/-- The verb `%d` on an integer: `fmt.Sprintf("%d", n)`. -/
def sprintfD (n : Int) : String :=
  match n with
  | Int.ofNat m => String.mk (natDigits (m + 1) m)
  | Int.negSucc m => String.mk ('-' :: natDigits (m + 2) (m + 1))

/-! ## Errors -/

/-- The error values the four operations return. -/
inductive Err where
  /-- From `errors.New("task title cannot be empty")`. -/
  | emptyTitle
  /-- From `errors.New("invalid due date format, expected YYYY-MM-DD")`. -/
  | badDueDate
  /-- From `errors.New("due date cannot be in the past")`. -/
  | pastDueDate
  /-- The value `sql.ErrNoRows`, returned by `Row.Scan` when the query selected no row. -/
  | errNoRows
  /-- From `errors.New("task not found")`. -/
  | taskNotFound
  /-- The store's `SQLITE_FULL`: no rowid is left for an AUTOINCREMENT key. -/
  | sqliteFull
  /-- The store's `SQLITE_CONSTRAINT`: a CHECK of the schema failed. -/
  | sqliteConstraint
deriving DecidableEq, Repr

deriving instance DecidableEq for Except

/-- The three error classes of the specification. -/
inductive ErrKind where
  | validation
  | notFound
  | store
deriving DecidableEq, Repr

/-- The class of an error value. -/
def Err.kind : Err → ErrKind
  | .emptyTitle => .validation
  | .badDueDate => .validation
  | .pastDueDate => .validation
  | .errNoRows => .notFound
  | .taskNotFound => .notFound
  | .sqliteFull => .store
  | .sqliteConstraint => .store

/-! ## The table `tasks` -/

/-- A row of the table created by `startup`:
`id INTEGER PRIMARY KEY AUTOINCREMENT, title TEXT NOT NULL, completed BOOLEAN,
priority TEXT CHECK(priority IN ('low','medium','high')), due_date DATETIME NULL,
created_at DATETIME`. -/
structure Row where
  id : Int
  title : String
  completed : Bool
  priority : String
  due_date : Option String
  created_at : Time
deriving DecidableEq, Repr

/-- The database file: the rows of `tasks` in rowid order and the entry of
`sqlite_sequence` for the table, the largest rowid an insert has ever given
out (0 before the first insert). -/
structure Store where
  rows : List Row
  seq : Int
deriving DecidableEq, Repr

/-- The largest rowid of a 64-bit signed key. -/
def MAX_ROWID : Int := 9223372036854775807

/-- The smallest rowid of a 64-bit signed key. -/
def MIN_ROWID : Int := -9223372036854775808

/-- A table as the store keeps it: rowids ascend strictly (they are the primary
key, so no two rows share one) and are 64-bit. -/
def Store.WF (s : Store) : Prop :=
  (s.rows.map Row.id).Pairwise (· < ·) ∧ ∀ r ∈ s.rows, MIN_ROWID ≤ r.id ∧ r.id ≤ MAX_ROWID

instance (s : Store) : Decidable s.WF := by
  unfold Store.WF
  infer_instance

/-- The largest rowid of a non-empty table. -/
def lastRowid (r : Row) (rs : List Row) : Int := rs.foldl (fun m x => max m x.id) r.id

/-- The rowid an insert into the AUTOINCREMENT table takes: one more than the
largest rowid of the table (1 for an empty table), raised to one more than the
recorded sequence value; `SQLITE_FULL` when either has reached the largest key. -/
def Store.newRowid (s : Store) : Except Err Int :=
  match s.rows with
  | [] => if s.seq = MAX_ROWID then .error .sqliteFull else .ok (max 1 (s.seq + 1))
  | r :: rs =>
    if MAX_ROWID ≤ lastRowid r rs then .error .sqliteFull
    else if s.seq = MAX_ROWID then .error .sqliteFull
    else .ok (max (lastRowid r rs + 1) (s.seq + 1))

/-- The membership test of the CHECK constraint on `priority`. -/
def priorityCheck (priority : String) : Bool :=
  priority = "low" || priority = "medium" || priority = "high"

/-- The statement
`INSERT INTO tasks(title, completed, priority, due_date, created_at) VALUES(?, ?, ?, ?, ?)`:
the new store and `LastInsertId`, or the store's error. -/
def Store.insert (s : Store) (title : String) (completed : Bool) (priority : String)
    (due_date : Option String) (created_at : Time) : Except Err (Store × Int) :=
  match s.newRowid with
  | .error e => .error e
  | .ok v =>
    if priorityCheck priority then
      .ok ({ rows := s.rows ++ [{ id := v, title := title, completed := completed,
                                  priority := priority, due_date := due_date,
                                  created_at := created_at }],
             seq := v }, v)
    else .error .sqliteConstraint

/-- What the database driver adds to the statements of the program: how a text
bound to `?` is compared with the integer column `id`, and how the text of a
DATETIME column reaches a `sql.NullString`.
* `rowidOfText t` is the rowid that `id = ?` holds for when `?` is bound to the
  text `t`, if there is one. The store gives the text numeric affinity before it
  compares, so a text equals at most one rowid, and more than one text can equal
  the same rowid.
* `scanDatetime t` is the string that `Scan` stores for the text `t` of the
  column `due_date`: the driver reads the text of a column declared DATETIME as
  a time, and `Scan` writes a time into a string in RFC 3339 form. -/
structure Driver where
  rowidOfText : String → Option Int
  scanDatetime : String → String

/-- The condition `id = ?` of the three statements that carry it. -/
def Driver.idMatches (drv : Driver) (id : String) (r : Row) : Bool :=
  drv.rowidOfText id == some r.id

/-- The query `SELECT completed FROM tasks WHERE id = ?` read by `QueryRow`:
the column of the first row selected. -/
def Store.selectCompleted (drv : Driver) (s : Store) (id : String) : Option Bool :=
  (s.rows.find? (drv.idMatches id)).map Row.completed

/-- The statement `UPDATE tasks SET completed = ? WHERE id = ?`. -/
def Store.updateCompleted (drv : Driver) (s : Store) (newStatus : Bool) (id : String) : Store :=
  { s with rows := s.rows.map fun r =>
      if drv.idMatches id r then { r with completed := newStatus } else r }

/-- The statement `DELETE FROM tasks WHERE id = ?`: the new store and
`RowsAffected`. -/
def Store.delete (drv : Driver) (s : Store) (id : String) : Store × Nat :=
  ({ s with rows := s.rows.filter fun r => !drv.idMatches id r },
   (s.rows.filter (drv.idMatches id)).length)

/-! ## The application -/

/-- The struct `Task`. -/
structure Task where
  ID : String
  Title : String
  Completed : Bool
  Priority : String
  DueDate : Option String
  CreatedAt : Time
deriving DecidableEq, Repr

/-- The struct `App` once `startup` has run: the cache list `tasks` and the
database behind the handle `DB`. -/
structure App where
  tasks : List Task
  DB : Store
deriving DecidableEq, Repr

/-- A database file in which `startup` has just created the table. -/
def Store.fresh : Store := { rows := [], seq := 0 }

/-- The value of `NewApp()` after `startup` has opened the database `db`. -/
def startup (db : Store) : App := { tasks := [], DB := db }

/-- Lines 73 to 84 of `AddTask`: the error of the due date check, if any. The
check is skipped for a nil pointer and for the empty string. -/
def dueDateError (dueDate : Option String) (now : Time) : Option Err :=
  match dueDate with
  | none => none
  | some d =>
    if d ≠ "" then
      match parseDate d with
      | none => some .badDueDate
      | some parsedDue =>
        if parsedDue.Before (midnightOf now) then some .pastDueDate else none
    else none

/-- The map `validPriorities` of `AddTask`. -/
def validPriorities (priority : String) : Bool :=
  priority = "low" || priority = "medium" || priority = "high"

/-- The method `AddTask`. `now` and `now2` are the two readings of `time.Now()`,
the first taken by the due date check, the second stored as `created_at`. -/
def AddTask (a : App) (title priority : String) (dueDate : Option String)
    (now now2 : Time) : Except Err Task × App :=
  if title = "" then (.error .emptyTitle, a)
  else
    match dueDateError dueDate now with
    | some e => (.error e, a)
    | none =>
      let priority := if validPriorities priority then priority else "medium"
      match a.DB.insert title false priority dueDate now2 with
      | .error e => (.error e, a)
      | .ok (db, insertedID) =>
        let task : Task :=
          { ID := sprintfD insertedID, Title := title, Completed := false,
            Priority := priority, DueDate := dueDate, CreatedAt := now2 }
        (.ok task, { tasks := a.tasks ++ [task], DB := db })

/-- The body of the loop of `GetTasks`: one row scanned into a `Task`. -/
def scanRow (drv : Driver) (r : Row) : Task :=
  { ID := sprintfD r.id, Title := r.title, Completed := r.completed,
    Priority := r.priority, DueDate := r.due_date.map drv.scanDatetime,
    CreatedAt := r.created_at }

/-- The method `GetTasks`. -/
def GetTasks (drv : Driver) (a : App) : Except Err (List Task) :=
  .ok (a.DB.rows.map (scanRow drv))

/-- The method `ToggleTaskCompletion`. -/
def ToggleTaskCompletion (drv : Driver) (a : App) (id : String) : Except Err Unit × App :=
  match a.DB.selectCompleted drv id with
  | none => (.error .errNoRows, a)
  | some completed =>
    let newStatus := !completed
    (.ok (), { a with DB := a.DB.updateCompleted drv newStatus id })

/-- The method `DeleteTask`. -/
def DeleteTask (drv : Driver) (a : App) (id : String) : Except Err Unit × App :=
  let res := a.DB.delete drv id
  if res.2 = 0 then (.error .taskNotFound, { a with DB := res.1 })
  else (.ok (), { a with DB := res.1 })

/-! ## The driver on the texts of this program -/

/-- The number a run of decimal digits denotes, continuing from `acc`; `none`
when a character is not a digit. -/
def decimalValue : List Char → Nat → Option Nat
  | [], acc => some acc
  | c :: cs, acc => if c.isDigit then decimalValue cs (acc * 10 + digitVal c) else none

/-- The integer a text in plain decimal form denotes: digits, after an
optional minus sign. -/
def decimalInt (t : String) : Option Int :=
  match t.data with
  | [] => none
  | c :: cs =>
    if c = '-' then
      match cs with
      | [] => none
      | _ => (decimalValue cs 0).map fun n => -(n : Int)
    else (decimalValue (c :: cs) 0).map fun n => (n : Int)

/-- The rowid a text in plain decimal form equals: its value, when that is a
64-bit integer. -/
def decimalRowid (t : String) : Option Int :=
  (decimalInt t).bind fun n => if MIN_ROWID ≤ n ∧ n ≤ MAX_ROWID then some n else none

/-- The RFC 3339 text of a DATETIME column that holds a date without a time of
day, and of one that holds no time at all: midnight UTC of the date for the
first, the zero time for the second. -/
def scanDateOnly (t : String) : String :=
  if (parseCivil t).isSome then t ++ "T00:00:00Z" else "0001-01-01T00:00:00Z"

/-- The driver on the texts this program binds and stores: an id in the decimal
form that `GetTasks` and `AddTask` return, and a due date that is a date in the
form YYYY-MM-DD or the empty string. On other texts (an id written with spaces,
a plus sign or a fraction, a due date with a time of day) the driver of the
program does more than this instance; the evaluations below take the instance
on texts of the two kinds only. -/
def plainDriver : Driver :=
  { rowidOfText := decimalRowid, scanDatetime := scanDateOnly }

/-- The driver compares the decimal form of every 64-bit rowid equal to that
rowid. -/
def Driver.ReadsDecimal (drv : Driver) : Prop :=
  ∀ n : Int, MIN_ROWID ≤ n → n ≤ MAX_ROWID → drv.rowidOfText (sprintfD n) = some n

/-- The driver scans a date without a time of day as midnight UTC of that date,
and the empty text as the zero time, both in RFC 3339 form. -/
def Driver.ScansDates (drv : Driver) : Prop :=
  (∀ t, (parseCivil t).isSome → drv.scanDatetime t = t ++ "T00:00:00Z") ∧
    drv.scanDatetime "" = "0001-01-01T00:00:00Z"

/-! ## What `AddTask` stores -/

/-- The priority that `AddTask` stores: the one given when it is one of the
three names, `medium` otherwise. -/
def coercePriority (priority : String) : String :=
  if validPriorities priority then priority else "medium"

/-- The row that `AddTask` has the store insert, with the rowid `v` it takes. -/
def newRow (v : Int) (title priority : String) (dueDate : Option String) (now2 : Time) : Row :=
  { id := v, title := title, completed := false, priority := coercePriority priority,
    due_date := dueDate, created_at := now2 }

/-- The Task that `AddTask` builds once the insert has returned `insertedID`. -/
def newTask (insertedID : Int) (title priority : String) (dueDate : Option String)
    (now2 : Time) : Task :=
  { ID := sprintfD insertedID, Title := title, Completed := false,
    Priority := coercePriority priority, DueDate := dueDate, CreatedAt := now2 }

/-! ## Conditions on the store -/

/-- A store that has a rowid left: neither the recorded sequence value nor a
rowid of the table has reached the largest key. -/
def Store.HasRoom (s : Store) : Prop :=
  s.seq < MAX_ROWID ∧ ∀ r ∈ s.rows, r.id < MAX_ROWID

instance (s : Store) : Decidable s.HasRoom := by
  unfold Store.HasRoom
  infer_instance

/-! ## A sample state -/

/-- A sample state: two tasks, with rowids 1 and 2. -/
def twoTasks : App :=
  startup { rows := [⟨1, "Buy milk", false, "low", some "2099-12-31", ⟨0, 0, 0⟩⟩,
                     ⟨2, "Call home", true, "high", none, ⟨60, 0, 0⟩⟩],
            seq := 2 }

/-! ## Sequences of calls -/

/-- A call of one of the three operations that write, with its arguments and,
for AddTask, the two clock readings it takes. -/
inductive Call where
  | add (title priority : String) (dueDate : Option String) (now now2 : Time)
  | toggle (id : String)
  | delete (id : String)

/-- One call: the state after it, and the Task returned when the call is a
successful AddTask. -/
def Call.run (drv : Driver) (a : App) : Call → App × Option Task
  | .add title priority dueDate now now2 =>
    match AddTask a title priority dueDate now now2 with
    | (.ok t, a2) => (a2, some t)
    | (.error _, a2) => (a2, none)
  | .toggle id => ((ToggleTaskCompletion drv a id).2, none)
  | .delete id => ((DeleteTask drv a id).2, none)

/-- A sequence of calls: the state after it, and the Tasks that its successful
AddTask calls returned, in the order of the calls. -/
def runCalls (drv : Driver) : App → List Call → App × List Task
  | a, [] => (a, [])
  | a, c :: cs => ((runCalls drv (c.run drv a).1 cs).1,
                   (c.run drv a).2.toList ++ (runCalls drv (c.run drv a).1 cs).2)

/-! ## Due dates in the table -/

/-- The due dates that AddTask lets into the table: none, the empty string, or
a date in the form YYYY-MM-DD. -/
def StoredDueDate (d : Option String) : Prop :=
  d = none ∨ d = some "" ∨ ∃ t, d = some t ∧ (parseCivil t).isSome = true

/-- A sample sequence of calls: two tasks are added, the first with a due date,
the first is completed, the second is deleted. -/
def sampleCalls : List Call :=
  [.add "Buy milk" "low" (some "2099-12-31") ⟨0, 0, 0⟩ ⟨0, 0, 0⟩,
   .add "Call home" "urgent" none ⟨60, 0, 0⟩ ⟨60, 0, 0⟩,
   .toggle "1", .delete "2"]

/-! # Theorems -/

/-! ## The calendar of package time -/

/-- The arithmetic of `yearOfDay`: the cycles cut off add up to the day number,
and the day left over lies within the year found. -/
theorem year_core (n d0 n400 d1 n100 d2 n4 d3 n1 y yd : Int)
    (h0 : d0 = n + 719162) (h1 : n400 = d0 / 146097) (h2 : d1 = d0 % 146097)
    (h4 : n100 = min (d1 / 36524) 3) (h5 : d2 = d1 - 36524 * n100)
    (h6 : n4 = d2 / 1461) (h7 : d3 = d2 % 1461)
    (h8 : n1 = min (d3 / 365) 3)
    (h9 : y = 400 * n400 + 100 * n100 + 4 * n4 + n1 + 1) (h10 : yd = d3 - 365 * n1) :
    365 * (y - 1970) + ((y - 1) / 4 - (y - 1) / 100 + (y - 1) / 400) - 477 + yd = n ∧ 0 ≤ yd ∧
      (yd < 365 ∨ (yd = 365 ∧ y % 4 = 0 ∧ (y % 100 ≠ 0 ∨ y % 400 = 0))) := by
  have a1 : 0 ≤ d1 ∧ d1 < 146097 := by omega
  have a2 : 0 ≤ n100 ∧ n100 ≤ 3 := by omega
  have a3 : 0 ≤ d2 ∧ d2 < 36525 ∧ (n100 < 3 → d2 < 36524) := by omega
  have a5 : 0 ≤ d3 ∧ d3 < 1461 := by omega
  have a4 : 0 ≤ n4 ∧ n4 ≤ 24 ∧ (n100 < 3 → n4 < 24 ∨ d3 < 1460) := by omega
  have a6 : 0 ≤ n1 ∧ n1 ≤ 3 ∧ 365 * n1 ≤ d3 ∧ (n1 < 3 → d3 < 365 * n1 + 365) := by omega
  have e1 : d0 = 146097 * n400 + d1 := by omega
  have e2 : d2 = 1461 * n4 + d3 := by omega
  clear h1 h2 h4 h6 h7 h8
  have q4 : (y - 1) / 4 = 100 * n400 + 25 * n100 + n4 := by omega
  have q100 : (y - 1) / 100 = 4 * n400 + n100 := by omega
  have q400 : (y - 1) / 400 = n400 := by omega
  rw [q4, q100, q400]
  refine ⟨by omega, by omega, ?_⟩
  omega

/-- The year found for a day number starts at or before it, and the day left
over lies within that year. -/
theorem yearOfDay_spec (n : Int) :
    daysBeforeYear (yearOfDay n).1 + (yearOfDay n).2 = n ∧ 0 ≤ (yearOfDay n).2 ∧
      (yearOfDay n).2 < (if isLeap (yearOfDay n).1 then 366 else 365) := by
  obtain ⟨h1, h2, h3⟩ := year_core n _ _ _ _ _ _ _ _ (yearOfDay n).1 (yearOfDay n).2
    rfl rfl rfl rfl rfl rfl rfl rfl rfl rfl
  refine ⟨h1, h2, ?_⟩
  by_cases hl : isLeap (yearOfDay n).1 = true
  · rw [if_pos hl]
    omega
  · rw [if_neg hl]
    rcases h3 with h3 | ⟨_, h4, h5⟩
    · exact h3
    · exfalso
      apply hl
      simp only [isLeap, Bool.and_eq_true, Bool.or_eq_true, decide_eq_true_eq]
      exact ⟨h4, h5⟩

/-- Month and day of a day within a non-leap year add up to that day. -/
theorem monthDayPlain_spec (day : Int) (h0 : 0 ≤ day) (h1 : day < 365) :
    daysBefore (monthDayPlain day).1 + (((monthDayPlain day).2 : Int) - 1) = day ∧
      ((monthDayPlain day).1 ≤ 2 ↔ day < 59) ∧ 1 ≤ (monthDayPlain day).2 := by
  obtain ⟨m, hm, hlt⟩ : ∃ m : Nat, (day / 31).toNat = m ∧ m < 12 := ⟨_, rfl, by omega⟩
  simp only [monthDayPlain, hm]
  interval_cases m <;> simp only [daysBefore] <;> split_ifs <;> dsimp only <;> omega

/-- Month and day of a day within a year add up to that day, the leap day
counted from March on. -/
theorem monthDay_spec (leap : Bool) (yday : Int) (h0 : 0 ≤ yday)
    (h1 : yday < (if leap then 366 else 365)) :
    daysBefore (monthDay leap yday).1
        + (if leap = true ∧ 3 ≤ (monthDay leap yday).1 then 1 else 0)
        + (((monthDay leap yday).2 : Int) - 1) = yday := by
  unfold monthDay
  by_cases hl : leap = true ∧ yday = 59
  · rw [if_pos hl]
    obtain ⟨hl1, hl2⟩ := hl
    subst hl1 hl2
    decide
  · rw [if_neg hl]
    cases leap
    · simp only [Bool.false_eq_true, false_and, if_false] at h1 ⊢
      have := monthDayPlain_spec yday h0 h1
      omega
    · simp only [true_and, if_true] at h1 hl ⊢
      by_cases h59 : 59 < yday
      · rw [if_pos h59]
        have := monthDayPlain_spec (yday - 1) (by omega) (by omega)
        split <;> omega
      · rw [if_neg h59]
        have := monthDayPlain_spec yday h0 (by omega)
        split <;> omega

/-- The calendar functions are inverse to each other: the day number of the
civil date of a day number is that day number. -/
theorem dayNumber_civilOfDay (n : Int) : (civilOfDay n).dayNumber = n := by
  obtain ⟨h1, h2, h3⟩ := yearOfDay_spec n
  have h := monthDay_spec (isLeap (yearOfDay n).1) (yearOfDay n).2 h2 h3
  simp only [Civil.dayNumber, civilOfDay, daysSinceEpoch]
  omega

/-- Midnight of the local day of `now` is the start of that day, moved by the
offset of the location. -/
theorem midnightOf_sec (now : Time) :
    (midnightOf now).sec = now.localDay * secondsPerDay - now.offset := by
  simp only [midnightOf, Date, Time.civil, dayNumber_civilOfDay]

/-! ## Dates in the form YYYY-MM-DD -/

/-- The chunk `2006` reads exactly four digits. -/
theorem getYear4_eq_some (l v : List Char) (y : Nat) :
    getYear4 l = some (y, v) ↔
      ∃ a b c d, l = a :: b :: c :: d :: v ∧
        (a.isDigit = true ∧ b.isDigit = true ∧ c.isDigit = true ∧ d.isDigit = true) ∧
        y = digitVal a * 1000 + digitVal b * 100 + digitVal c * 10 + digitVal d := by
  rcases l with _ | ⟨a, _ | ⟨b, _ | ⟨c, _ | ⟨d, rest⟩⟩⟩⟩
  · simp [getYear4]
  · simp [getYear4]
  · simp [getYear4]
  · simp [getYear4]
  · simp only [getYear4, Bool.and_eq_true]
    constructor
    · intro h
      split at h
      · rename_i hd
        simp only [Option.some.injEq, Prod.mk.injEq] at h
        exact ⟨a, b, c, d, by rw [h.2], ⟨hd.1.1.1, hd.1.1.2, hd.1.2, hd.2⟩, h.1.symm⟩
      · simp at h
    · rintro ⟨a2, b2, c2, d2, h1, h2, h3⟩
      simp only [List.cons.injEq] at h1
      obtain ⟨rfl, rfl, rfl, rfl, rfl⟩ := h1
      rw [if_pos ⟨⟨⟨h2.1, h2.2.1⟩, h2.2.2.1⟩, h2.2.2.2⟩, h3]

/-- The chunks `01` and `02` read exactly two digits. -/
theorem getnum2_eq_some (l v : List Char) (n : Nat) :
    getnum2 l = some (n, v) ↔
      ∃ a b, l = a :: b :: v ∧ (a.isDigit = true ∧ b.isDigit = true) ∧
        n = digitVal a * 10 + digitVal b := by
  rcases l with _ | ⟨a, _ | ⟨b, rest⟩⟩
  · simp [getnum2]
  · simp [getnum2]
  · simp only [getnum2, Bool.and_eq_true]
    constructor
    · intro h
      split at h
      · rename_i hd
        simp only [Option.some.injEq, Prod.mk.injEq] at h
        exact ⟨a, b, by rw [h.2], hd, h.1.symm⟩
      · simp at h
    · rintro ⟨a2, b2, h1, h2, h3⟩
      simp only [List.cons.injEq] at h1
      obtain ⟨rfl, rfl, rfl⟩ := h1
      rw [if_pos h2, h3]

/-- A literal dash of the layout reads exactly a dash. -/
theorem skipDash_eq_some (l v : List Char) : skipDash l = some v ↔ l = '-' :: v := by
  rcases l with _ | ⟨a, rest⟩
  · simp [skipDash]
  · simp only [skipDash, List.cons.injEq]
    constructor
    · intro h
      split at h
      · rename_i ha
        simp only [Option.some.injEq] at h
        exact ⟨ha, h⟩
      · simp at h
    · rintro ⟨h1, h2⟩
      rw [if_pos h1, h2]

/-- What `time.Parse` accepts for the layout `2006-01-02` is the texts of a
date in the form YYYY-MM-DD, and it reads the date they show. -/
theorem parseCivil_iff (s : String) (c : Civil) : parseCivil s = some c ↔ IsDateText s c := by
  unfold parseCivil IsDateText
  constructor
  · intro h
    cases h1 : getYear4 s.data with
    | none => simp [h1] at h
    | some yv =>
      obtain ⟨y, v1⟩ := yv
      simp only [h1] at h
      cases h2 : skipDash v1 with
      | none => simp [h2] at h
      | some v2 =>
        simp only [h2] at h
        cases h3 : getnum2 v2 with
        | none => simp [h3] at h
        | some mv =>
          obtain ⟨m, v3⟩ := mv
          simp only [h3] at h
          split at h
          · simp at h
          · rename_i hm
            cases h4 : skipDash v3 with
            | none => simp [h4] at h
            | some v4 =>
              simp only [h4] at h
              cases h5 : getnum2 v4 with
              | none => simp [h5] at h
              | some dv =>
                obtain ⟨d, v5⟩ := dv
                simp only [h5] at h
                split at h
                · simp at h
                · rename_i hv
                  split at h
                  · simp at h
                  · rename_i hd
                    simp only [Option.some.injEq] at h
                    obtain ⟨a, b, c2, d2, e1, e2, e3⟩ := (getYear4_eq_some _ _ _).mp h1
                    have e4 := (skipDash_eq_some _ _).mp h2
                    obtain ⟨m1, m2, e5, e6, e7⟩ := (getnum2_eq_some _ _ _).mp h3
                    have e8 := (skipDash_eq_some _ _).mp h4
                    obtain ⟨d1, dd2, e9, e10, e11⟩ := (getnum2_eq_some _ _ _).mp h5
                    have hv5 : v5 = [] := by simpa using hv
                    refine ⟨a, b, c2, d2, m1, m2, d1, dd2, ?_, e2, e6, e10, ?_, ?_⟩
                    · rw [e1, e4, e5, e8, e9, hv5]
                    · rw [← h, e3, e7, e11]
                    · rw [← h]
                      simp only
                      omega
  · rintro ⟨y1, y2, y3, y4, m1, m2, d1, d2, hs, hy, hm, hd, hc, h1, h2, h3, h4⟩
    subst hc
    simp only at h1 h2 h3 h4
    have g1 := (getYear4_eq_some s.data _ _).mpr ⟨y1, y2, y3, y4, hs, hy, rfl⟩
    have g3 := (getnum2_eq_some (m1 :: m2 :: '-' :: [d1, d2]) _ _).mpr ⟨m1, m2, rfl, hm, rfl⟩
    have g5 := (getnum2_eq_some [d1, d2] [] _).mpr ⟨d1, d2, rfl, hd, rfl⟩
    simp only [g1, skipDash, if_true, g3, g5]
    rw [if_neg (by omega)]
    simp only [ne_eq, not_true_eq_false, if_false]
    rw [if_neg (by omega)]

/-! ## `AddTask`: the checks -/

/-- AddTask with a title returns the error of the due date check, if any. -/
theorem AddTask_of_dueDateError (a : App) (title priority : String) (dueDate : Option String)
    (now now2 : Time) (e : Err) (ht : title ≠ "") (h : dueDateError dueDate now = some e) :
    AddTask a title priority dueDate now now2 = (.error e, a) := by
  simp only [AddTask, if_neg ht, h]

/-- AddTask past its checks: the result is that of the insert. -/
theorem AddTask_of_checked (a : App) (title priority : String) (dueDate : Option String)
    (now now2 : Time) (ht : title ≠ "") (h : dueDateError dueDate now = none) :
    AddTask a title priority dueDate now now2 =
      match a.DB.insert title false (coercePriority priority) dueDate now2 with
      | .error e => (.error e, a)
      | .ok (db, insertedID) =>
        (.ok (newTask insertedID title priority dueDate now2),
         { tasks := a.tasks ++ [newTask insertedID title priority dueDate now2], DB := db }) := by
  simp only [AddTask, if_neg ht, h, coercePriority, newTask]

/-- The store never answers an insert with a validation error. -/
theorem insert_error_kind (s : Store) (title : String) (completed : Bool) (priority : String)
    (due_date : Option String) (created_at : Time) (e : Err)
    (h : s.insert title completed priority due_date created_at = .error e) :
    e.kind = .store := by
  unfold Store.insert at h
  cases hv : s.newRowid with
  | error e2 =>
    rw [hv] at h
    simp only [Except.error.injEq] at h
    subst h
    unfold Store.newRowid at hv
    split at hv
    · split at hv
      · simp only [Except.error.injEq] at hv; subst hv; rfl
      · simp at hv
    · split at hv
      · simp only [Except.error.injEq] at hv; subst hv; rfl
      · split at hv
        · simp only [Except.error.injEq] at hv; subst hv; rfl
        · simp at hv
  | ok v =>
    rw [hv] at h
    simp only at h
    split at h
    · simp at h
    · simp only [Except.error.injEq] at h; subst h; rfl

/-- The due date check, for a location at or east of UTC (offset from 0 up to,
not including, 24 hours): a non-empty due date is refused exactly when it is
not a date in the form YYYY-MM-DD or its date is before the local date of `now`. -/
theorem dueDateError_east (d : String) (now : Time) (hd : d ≠ "")
    (h0 : 0 ≤ now.offset) (h1 : now.offset < 86400) :
    dueDateError (some d) now ≠ none ↔
      (parseCivil d = none ∨ ∃ c, parseCivil d = some c ∧ c.dayNumber < now.localDay) := by
  simp only [dueDateError, if_pos hd, parseDate]
  cases hp : parseCivil d with
  | none => simp
  | some c =>
    simp only [Option.map_some', Time.Before, midnightOf_sec, secondsPerDay]
    have : ¬ ((0 : Nat) < (midnightOf now).nsec) := by simp [midnightOf, Date]
    by_cases hlt : c.dayNumber < now.localDay
    · have : c.dayNumber * 86400 < now.localDay * 86400 - now.offset := by omega
      simp [this, hlt]
    · have : ¬ c.dayNumber * 86400 < now.localDay * 86400 - now.offset := by omega
      simp [this, hlt, midnightOf, Date]

/-- The due date check, for a location west of UTC (offset negative, less than
24 hours): the local date of `now` itself is refused as being in the past. -/
theorem dueDateError_west_today (d : String) (now : Time) (c : Civil) (hd : d ≠ "")
    (h0 : now.offset < 0) (hp : parseCivil d = some c)
    (htoday : c.dayNumber = now.localDay) :
    dueDateError (some d) now = some .pastDueDate := by
  simp only [dueDateError, if_pos hd, parseDate, hp, Option.map_some', Time.Before,
    midnightOf_sec, secondsPerDay]
  have : c.dayNumber * 86400 < now.localDay * 86400 - now.offset := by omega
  simp [this]

/-- AddTask, for a location at or east of UTC (offset from 0 up to, not
including, 24 hours): with a title and a non-empty due date it fails with a
validation error exactly when the due date is not a date in the form
YYYY-MM-DD or its date is before the local date of `now`. -/
theorem AddTask_validation_east (a : App) (title priority d : String) (now now2 : Time)
    (ht : title ≠ "") (hd : d ≠ "") (h0 : 0 ≤ now.offset) (h1 : now.offset < 86400) :
    (∃ e, (AddTask a title priority (some d) now now2).1 = .error e ∧ e.kind = .validation) ↔
      ((¬ ∃ c, IsDateText d c) ∨ ∃ c, IsDateText d c ∧ c.dayNumber < now.localDay) := by
  have hiff : ((¬ ∃ c, IsDateText d c) ∨ ∃ c, IsDateText d c ∧ c.dayNumber < now.localDay) ↔
      (parseCivil d = none ∨ ∃ c, parseCivil d = some c ∧ c.dayNumber < now.localDay) := by
    simp only [← parseCivil_iff]
    cases parseCivil d <;> simp
  rw [hiff, ← dueDateError_east d now hd h0 h1]
  cases he : dueDateError (some d) now with
  | some e =>
    rw [AddTask_of_dueDateError a title priority (some d) now now2 e ht he]
    simp only [ne_eq, reduceCtorEq, not_false_eq_true, iff_true]
    refine ⟨e, rfl, ?_⟩
    simp only [dueDateError, if_pos hd] at he
    split at he
    · simp only [Option.some.injEq] at he; subst he; rfl
    · split at he
      · simp only [Option.some.injEq] at he; subst he; rfl
      · simp at he
  | none =>
    rw [AddTask_of_checked a title priority (some d) now now2 ht he]
    simp only [ne_eq, not_true_eq_false, iff_false, not_exists, not_and]
    intro e h
    cases hi : a.DB.insert title false (coercePriority priority) (some d) now2 with
    | error e2 =>
      rw [hi] at h
      simp only [Except.error.injEq] at h
      subst h
      rw [insert_error_kind _ _ _ _ _ _ _ hi]
      simp
    | ok r =>
      rw [hi] at h
      simp at h

/-- C1, at the failing input. The clock shows 2024-06-15 12:00 in a location
five hours west of UTC, and the due date is the text of that same day,
2024-06-15: AddTask refuses it with the error of a due date in the past. -/
theorem AddTask_refuses_today_west_of_UTC :
    IsDateText "2024-06-15" (Time.civil ⟨1718470800, 0, -18000⟩) ∧
      (AddTask (startup Store.fresh) "Buy milk" "low" (some "2024-06-15")
        ⟨1718470800, 0, -18000⟩ ⟨1718470800, 0, -18000⟩).1 = .error .pastDueDate ∧
      Err.pastDueDate.kind = .validation := by
  refine ⟨(parseCivil_iff _ _).mp (by decide), by decide, rfl⟩

/-! ## Decimal ids -/

/-- The value of the character of a digit is the digit. -/
theorem digitVal_digitChar (d : Nat) (h : d < 10) : digitVal (digitChar d) = d := by
  interval_cases d <;> rfl

/-- The character of a digit is a digit. -/
theorem isDigit_digitChar (d : Nat) (h : d < 10) : (digitChar d).isDigit = true := by
  interval_cases d <;> rfl

/-- The character of a digit is not the minus sign. -/
theorem digitChar_ne_minus (d : Nat) (h : d < 10) : digitChar d ≠ '-' := by
  interval_cases d <;> decide

/-- Reading one more character multiplies by ten and adds its value. -/
theorem decimalValue_append (l : List Char) (c : Char) (acc : Nat) :
    decimalValue (l ++ [c]) acc =
      (decimalValue l acc).bind fun v => if c.isDigit then some (v * 10 + digitVal c) else none := by
  induction l generalizing acc with
  | nil => simp [decimalValue]
  | cons x xs ih =>
    simp only [List.cons_append, decimalValue]
    split
    · exact ih _
    · rfl

/-- Reading the digits of a natural number gives the number back. -/
theorem decimalValue_natDigits (fuel n : Nat) (h : n < fuel) :
    decimalValue (natDigits fuel n) 0 = some n := by
  induction fuel generalizing n with
  | zero => omega
  | succ k ih =>
    unfold natDigits
    split
    · rename_i hn
      simp [decimalValue, isDigit_digitChar n hn, digitVal_digitChar n hn]
    · rw [decimalValue_append, ih (n / 10) (by omega)]
      simp only [Option.some_bind, isDigit_digitChar (n % 10) (Nat.mod_lt _ (by decide)),
        digitVal_digitChar (n % 10) (Nat.mod_lt _ (by decide)), if_true, Option.some.injEq]
      omega

/-- The digits of a natural number start with a digit. -/
theorem natDigits_head (fuel n : Nat) (h : n < fuel) :
    ∃ d cs, d < 10 ∧ natDigits fuel n = digitChar d :: cs := by
  induction fuel generalizing n with
  | zero => omega
  | succ k ih =>
    unfold natDigits
    split
    · rename_i hn
      exact ⟨n, [], hn, rfl⟩
    · obtain ⟨d, cs, hd, hcs⟩ := ih (n / 10) (by omega)
      exact ⟨d, cs ++ [digitChar (n % 10)], hd, by rw [hcs]; rfl⟩

/-- Reading the decimal form of an integer gives the integer back. -/
theorem decimalInt_sprintfD (n : Int) : decimalInt (sprintfD n) = some n := by
  cases n with
  | ofNat m =>
    obtain ⟨d, cs, hd, hcs⟩ := natDigits_head (m + 1) m (by omega)
    have hv := decimalValue_natDigits (m + 1) m (by omega)
    simp only [sprintfD, decimalInt, hcs, if_neg (digitChar_ne_minus d hd)]
    rw [← hcs, hv]
    rfl
  | negSucc m =>
    obtain ⟨d, cs, hd, hcs⟩ := natDigits_head (m + 2) (m + 1) (by omega)
    have hv := decimalValue_natDigits (m + 2) (m + 1) (by omega)
    simp only [sprintfD, decimalInt, if_true, hcs]
    rw [← hcs, hv]
    rfl

/-- Distinct integers have distinct decimal forms. -/
theorem sprintfD_injective (m n : Int) (h : sprintfD m = sprintfD n) : m = n := by
  have hm := decimalInt_sprintfD m
  rw [h, decimalInt_sprintfD n] at hm
  exact (Option.some.inj hm).symm

/-- The driver instance reads the decimal form of a rowid back as the rowid. -/
theorem plainDriver_readsDecimal : plainDriver.ReadsDecimal := by
  intro n h0 h1
  simp only [plainDriver, decimalRowid, decimalInt_sprintfD, Option.some_bind]
  rw [if_pos ⟨h0, h1⟩]

/-- The driver instance scans dates without a time of day as midnight UTC. -/
theorem plainDriver_scansDates : plainDriver.ScansDates := by
  refine ⟨?_, by decide⟩
  intro t ht
  simp only [plainDriver, scanDateOnly, ht, if_true]

/-! ## The store -/

/-- The running maximum is at least its start and at least every rowid folded. -/
theorem le_foldl_max (rs : List Row) (m : Int) :
    m ≤ rs.foldl (fun m x => max m x.id) m ∧
      ∀ r ∈ rs, r.id ≤ rs.foldl (fun m x => max m x.id) m := by
  induction rs generalizing m with
  | nil => simp
  | cons x xs ih =>
    simp only [List.foldl_cons, List.mem_cons, forall_eq_or_imp]
    obtain ⟨h1, h2⟩ := ih (max m x.id)
    refine ⟨by omega, by omega, h2⟩

/-- The rowid of an insert is above the recorded sequence value and above every
rowid of the table. -/
theorem newRowid_spec (s : Store) (v : Int) (h : s.newRowid = .ok v) :
    s.seq < v ∧ ∀ r ∈ s.rows, r.id < v := by
  unfold Store.newRowid at h
  split at h
  · rename_i hr
    split at h
    · simp at h
    · simp only [Except.ok.injEq] at h
      rw [hr]
      simp only [List.not_mem_nil, false_implies, implies_true, and_true]
      omega
  · rename_i r rs hr
    split at h
    · simp at h
    · split at h
      · simp at h
      · simp only [Except.ok.injEq] at h
        rw [hr]
        obtain ⟨h1, h2⟩ := le_foldl_max rs r.id
        refine ⟨by omega, ?_⟩
        intro x hx
        simp only [List.mem_cons] at hx
        have : x.id ≤ lastRowid r rs := by
          rcases hx with hx | hx
          · rw [hx]; exact h1
          · exact h2 x hx
        omega

/-- A store with a rowid left gives one out. -/
theorem newRowid_of_hasRoom (s : Store) (h : s.HasRoom) : ∃ v, s.newRowid = .ok v := by
  obtain ⟨h1, h2⟩ := h
  unfold Store.newRowid
  split
  · rw [if_neg (by omega)]
    exact ⟨_, rfl⟩
  · rename_i r rs hr
    rw [hr] at h2
    have hlast : lastRowid r rs < MAX_ROWID := by
      have hgen : ∀ (l : List Row) (m : Int), m < MAX_ROWID → (∀ x ∈ l, x.id < MAX_ROWID) →
          l.foldl (fun m x => max m x.id) m < MAX_ROWID := by
        intro l
        induction l with
        | nil => intro m hm _; simpa using hm
        | cons x xs ih =>
          intro m hm hx
          simp only [List.foldl_cons]
          apply ih
          · have := hx x (List.mem_cons_self _ _)
            omega
          · intro y hy
            exact hx y (List.mem_cons_of_mem _ hy)
      exact hgen rs r.id (h2 r (List.mem_cons_self _ _))
        (fun x hx => h2 x (List.mem_cons_of_mem _ hx))
    rw [if_neg (by omega), if_neg (by omega)]
    exact ⟨_, rfl⟩

/-- The priority AddTask stores passes the CHECK constraint of the schema. -/
theorem priorityCheck_coercePriority (priority : String) :
    priorityCheck (coercePriority priority) = true := by
  unfold coercePriority
  split
  · rename_i h
    exact h
  · decide

/-- What a successful AddTask has done: the insert took a rowid `v` above the
sequence value and above every rowid of the table, the row went to the end of
the table, the sequence value became `v`, and the Task went to the end of the
cache list. -/
theorem AddTask_ok (a a2 : App) (title priority : String) (dueDate : Option String)
    (now now2 : Time) (t : Task)
    (h : AddTask a title priority dueDate now now2 = (.ok t, a2)) :
    ∃ v : Int, a.DB.seq < v ∧ (∀ r ∈ a.DB.rows, r.id < v) ∧
      t = newTask v title priority dueDate now2 ∧
      a2.DB = { rows := a.DB.rows ++ [newRow v title priority dueDate now2], seq := v } ∧
      a2.tasks = a.tasks ++ [t] ∧ title ≠ "" ∧ dueDateError dueDate now = none := by
  by_cases ht : title = ""
  · simp [AddTask, ht] at h
  · cases hd : dueDateError dueDate now with
    | some e =>
      rw [AddTask_of_dueDateError a title priority dueDate now now2 e ht hd] at h
      simp at h
    | none =>
      rw [AddTask_of_checked a title priority dueDate now now2 ht hd] at h
      unfold Store.insert at h
      cases hv : a.DB.newRowid with
      | error e =>
        rw [hv] at h
        simp at h
      | ok v =>
        rw [hv] at h
        simp only [priorityCheck_coercePriority, if_true, Prod.mk.injEq, Except.ok.injEq] at h
        obtain ⟨h1, h2⟩ := h
        obtain ⟨hs, hr⟩ := newRowid_spec a.DB v hv
        refine ⟨v, hs, hr, h1.symm, ?_, ?_, ht, rfl⟩
        · rw [← h2]
          rfl
        · rw [← h2, h1]

/-- What AddTask does when its checks pass and the store has a rowid left. -/
theorem AddTask_succeeds (a : App) (title priority : String) (dueDate : Option String)
    (now now2 : Time) (ht : title ≠ "") (hd : dueDateError dueDate now = none)
    (hroom : a.DB.HasRoom) :
    ∃ v : Int, AddTask a title priority dueDate now now2 =
      (.ok (newTask v title priority dueDate now2),
       { tasks := a.tasks ++ [newTask v title priority dueDate now2],
         DB := { rows := a.DB.rows ++ [newRow v title priority dueDate now2], seq := v } }) := by
  obtain ⟨v, hv⟩ := newRowid_of_hasRoom a.DB hroom
  refine ⟨v, ?_⟩
  rw [AddTask_of_checked a title priority dueDate now now2 ht hd]
  simp only [Store.insert, hv, priorityCheck_coercePriority, if_true, newRow]

/-- When the text bound equals the rowid `k`, the condition selects the rows
with rowid `k`. -/
theorem idMatches_of_rowid (drv : Driver) (id : String) (k : Int) (r : Row)
    (hk : drv.rowidOfText id = some k) : drv.idMatches id r = decide (r.id = k) := by
  simp only [Driver.idMatches, hk]
  by_cases h : r.id = k
  · simp [h]
  · have : ¬ k = r.id := fun e => h e.symm
    simp [h, this]

/-- In a table with a primary key, a row splits the table into the rows before
it and the rows after it, and none of them has its rowid. -/
theorem split_at_row (s : Store) (r : Row) (hwf : s.WF) (hr : r ∈ s.rows) :
    ∃ pre post, s.rows = pre ++ r :: post ∧ (∀ x ∈ pre, x.id ≠ r.id) ∧
      (∀ x ∈ post, x.id ≠ r.id) := by
  obtain ⟨pre, post, hsplit⟩ := List.append_of_mem hr
  refine ⟨pre, post, hsplit, ?_, ?_⟩
  · intro x hx
    have hp := hwf.1
    rw [hsplit, List.map_append, List.pairwise_append] at hp
    have := hp.2.2 x.id (List.mem_map_of_mem _ hx) r.id
      (List.mem_map_of_mem _ (List.mem_cons_self _ _))
    omega
  · intro x hx
    have hp := hwf.1
    rw [hsplit, List.map_append, List.pairwise_append, List.map_cons, List.pairwise_cons] at hp
    have := hp.2.1.1 x.id (List.mem_map_of_mem _ hx)
    omega

/-- Rows none of which has the rowid `k` are all kept, none selected, none
rewritten. -/
theorem filter_no_match (rows : List Row) (k : Int) (h : ∀ x ∈ rows, x.id ≠ k) :
    rows.filter (fun x => !decide (x.id = k)) = rows ∧
      rows.filter (fun x => decide (x.id = k)) = [] ∧
      rows.find? (fun x => decide (x.id = k)) = none ∧
      ∀ f : Row → Row, rows.map (fun x => if decide (x.id = k) = true then f x else x) = rows := by
  refine ⟨?_, ?_, ?_, ?_⟩
  · rw [List.filter_eq_self]
    intro x hx
    simp [h x hx]
  · rw [List.filter_eq_nil_iff]
    intro x hx
    simp [h x hx]
  · rw [List.find?_eq_none]
    intro x hx
    simp [h x hx]
  · intro f
    conv_rhs => rw [← List.map_id rows]
    apply List.map_congr_left
    intro x hx
    simp [h x hx]

/-- ToggleTaskCompletion on the id of a row: the row is rewritten in place with
its `completed` negated, and nothing else changes. -/
theorem toggle_at_row (drv : Driver) (tasks : List Task) (pre post : List Row) (r : Row)
    (seq : Int) (id : String) (hk : drv.rowidOfText id = some r.id)
    (hpre : ∀ x ∈ pre, x.id ≠ r.id) (hpost : ∀ x ∈ post, x.id ≠ r.id) :
    ToggleTaskCompletion drv { tasks := tasks, DB := { rows := pre ++ r :: post, seq := seq } } id
      = (.ok (), { tasks := tasks,
                   DB := { rows := pre ++ { r with completed := !r.completed } :: post,
                           seq := seq } }) := by
  have hm : drv.idMatches id = fun x => decide (x.id = r.id) :=
    funext fun x => idMatches_of_rowid drv id r.id x hk
  obtain ⟨_, _, h3, h4⟩ := filter_no_match pre r.id hpre
  obtain ⟨_, _, _, h4b⟩ := filter_no_match post r.id hpost
  simp only [ToggleTaskCompletion, Store.selectCompleted, Store.updateCompleted, hm,
    List.find?_append, h3, Option.none_or, List.find?_cons, decide_True, Option.map_some',
    List.map_append, List.map_cons, h4, h4b, if_true]

/-- DeleteTask on the id of a row: the row leaves the table, and nothing else
changes. -/
theorem delete_at_row (drv : Driver) (tasks : List Task) (pre post : List Row) (r : Row)
    (seq : Int) (id : String) (hk : drv.rowidOfText id = some r.id)
    (hpre : ∀ x ∈ pre, x.id ≠ r.id) (hpost : ∀ x ∈ post, x.id ≠ r.id) :
    DeleteTask drv { tasks := tasks, DB := { rows := pre ++ r :: post, seq := seq } } id
      = (.ok (), { tasks := tasks, DB := { rows := pre ++ post, seq := seq } }) := by
  have hm : drv.idMatches id = fun x => decide (x.id = r.id) :=
    funext fun x => idMatches_of_rowid drv id r.id x hk
  obtain ⟨h1, h2, _, _⟩ := filter_no_match pre r.id hpre
  obtain ⟨h1b, h2b, _, _⟩ := filter_no_match post r.id hpost
  simp only [DeleteTask, Store.delete, hm, List.filter_append, h1, h2, h1b, h2b,
    List.filter_cons, decide_True, Bool.not_true, if_true, List.nil_append, List.append_nil,
    List.length_cons, List.length_nil]
  simp

/-! ## The four operations on one state -/

/-- C2. AddTask with the empty title fails with the validation error of an
empty title, whatever the priority, the due date, the clock and the state, and
it leaves the state (the store and the cache list) as it was. -/
theorem AddTask_empty_title (a : App) (priority : String) (dueDate : Option String)
    (now now2 : Time) :
    AddTask a "" priority dueDate now now2 = (.error .emptyTitle, a) ∧
      Err.emptyTitle.kind = .validation := by
  exact ⟨by simp [AddTask], rfl⟩

/-- C3. With a title, a due date that passes the check (or none) and a store
that has a rowid left, AddTask succeeds; the Task returned and the row added to
the table carry the priority given when it is `low`, `medium` or `high`, and
`medium` for every other string. -/
theorem AddTask_priority (a : App) (title priority : String) (dueDate : Option String)
    (now now2 : Time) (ht : title ≠ "") (hd : dueDateError dueDate now = none)
    (hroom : a.DB.HasRoom) :
    ∃ (t : Task) (row : Row) (a2 : App),
      AddTask a title priority dueDate now now2 = (.ok t, a2) ∧
      a2.DB.rows = a.DB.rows ++ [row] ∧ t.ID = sprintfD row.id ∧
      t.Priority = row.priority ∧
      row.priority =
        (if priority = "low" ∨ priority = "medium" ∨ priority = "high" then priority
         else "medium") := by
  obtain ⟨v, hv⟩ := AddTask_succeeds a title priority dueDate now now2 ht hd hroom
  refine ⟨_, newRow v title priority dueDate now2, _, hv, rfl, rfl, rfl, ?_⟩
  simp only [newRow, coercePriority, validPriorities, Bool.or_eq_true, decide_eq_true_eq,
    or_assoc]

/-- C3 on the empty store, for the priority `urgent`. -/
theorem AddTask_priority_witness :
    ∃ (t : Task) (row : Row) (a2 : App),
      AddTask (startup Store.fresh) "Buy milk" "urgent" none ⟨0, 0, 0⟩ ⟨0, 0, 0⟩ = (.ok t, a2) ∧
      a2.DB.rows = (startup Store.fresh).DB.rows ++ [row] ∧ t.ID = sprintfD row.id ∧
      t.Priority = row.priority ∧
      row.priority =
        (if "urgent" = "low" ∨ "urgent" = "medium" ∨ "urgent" = "high" then "urgent"
         else "medium") :=
  AddTask_priority (startup Store.fresh) "Buy milk" "urgent" none ⟨0, 0, 0⟩ ⟨0, 0, 0⟩
    (by decide) (by decide) (by decide)

/-- When the condition holds for no row, DELETE keeps every row and the query
selects none. -/
theorem filter_eq_self_of_no_match (drv : Driver) (id : String) (rows : List Row)
    (h : ∀ r ∈ rows, drv.rowidOfText id ≠ some r.id) :
    rows.filter (fun r => !drv.idMatches id r) = rows ∧
      rows.filter (drv.idMatches id) = [] ∧ rows.find? (drv.idMatches id) = none := by
  have hm : ∀ r ∈ rows, drv.idMatches id r = false := by
    intro r hr
    simp only [Driver.idMatches, beq_eq_false_iff_ne, ne_eq]
    exact h r hr
  refine ⟨?_, ?_, ?_⟩
  · rw [List.filter_eq_self]
    intro r hr
    simp [hm r hr]
  · rw [List.filter_eq_nil_iff]
    intro r hr
    simp [hm r hr]
  · rw [List.find?_eq_none]
    intro r hr
    simp [hm r hr]

/-- With no row selected, the query of ToggleTaskCompletion finds nothing and
the DELETE of DeleteTask affects no row; both leave the state as it was. -/
theorem no_match_leaves_state (drv : Driver) (a : App) (id : String)
    (h : ∀ r ∈ a.DB.rows, drv.rowidOfText id ≠ some r.id) :
    ToggleTaskCompletion drv a id = (.error .errNoRows, a) ∧
      DeleteTask drv a id = (.error .taskNotFound, a) := by
  obtain ⟨h1, h2, h3⟩ := filter_eq_self_of_no_match drv id a.DB.rows h
  refine ⟨?_, ?_⟩
  · simp only [ToggleTaskCompletion, Store.selectCompleted, h3, Option.map_none']
  · simp only [DeleteTask, Store.delete, h1, h2, List.length_nil, if_true]

/-- C6. When the condition `id = ?` holds for no row of the table,
ToggleTaskCompletion fails with `sql.ErrNoRows` and DeleteTask fails with
`task not found`, both not-found errors, and both leave the state as it was. -/
theorem not_found_of_no_match (drv : Driver) (a : App) (id : String)
    (h : ∀ r ∈ a.DB.rows, drv.rowidOfText id ≠ some r.id) :
    ToggleTaskCompletion drv a id = (.error .errNoRows, a) ∧
      DeleteTask drv a id = (.error .taskNotFound, a) ∧
      Err.errNoRows.kind = .notFound ∧ Err.taskNotFound.kind = .notFound := by
  obtain ⟨h1, h2⟩ := no_match_leaves_state drv a id h
  exact ⟨h1, h2, rfl, rfl⟩

/-- C6 on a table with the one rowid 1, for the id `2`. -/
theorem not_found_of_no_match_witness :
    ToggleTaskCompletion plainDriver
        (startup { rows := [⟨1, "Buy milk", false, "low", none, ⟨0, 0, 0⟩⟩], seq := 1 }) "2" =
        (.error .errNoRows,
          startup { rows := [⟨1, "Buy milk", false, "low", none, ⟨0, 0, 0⟩⟩], seq := 1 }) ∧
      DeleteTask plainDriver
        (startup { rows := [⟨1, "Buy milk", false, "low", none, ⟨0, 0, 0⟩⟩], seq := 1 }) "2" =
        (.error .taskNotFound,
          startup { rows := [⟨1, "Buy milk", false, "low", none, ⟨0, 0, 0⟩⟩], seq := 1 }) ∧
      Err.errNoRows.kind = .notFound ∧ Err.taskNotFound.kind = .notFound :=
  not_found_of_no_match plainDriver
    (startup { rows := [⟨1, "Buy milk", false, "low", none, ⟨0, 0, 0⟩⟩], seq := 1 }) "2"
    (by decide)

/-- The sample state is a table with a primary key. -/
theorem twoTasks_wf : twoTasks.DB.WF := by
  decide

/-- C10. On the id of a stored task, in a table with a primary key,
ToggleTaskCompletion succeeds and rewrites that one row in place with
`completed` negated: its rowid, title, priority, due date and creation time
stay, the rows before and after it stay, no row is added or removed, and the
sequence value and the cache list stay. -/
theorem toggle_changes_completed_only (drv : Driver) (a : App) (r : Row)
    (hdrv : drv.ReadsDecimal) (hwf : a.DB.WF) (hr : r ∈ a.DB.rows) :
    ∃ pre post, a.DB.rows = pre ++ r :: post ∧
      ToggleTaskCompletion drv a (sprintfD r.id) =
        (.ok (), { tasks := a.tasks,
                   DB := { rows := pre ++ { r with completed := !r.completed } :: post,
                           seq := a.DB.seq } }) := by
  obtain ⟨pre, post, hsplit, hpre, hpost⟩ := split_at_row a.DB r hwf hr
  have hk := hdrv r.id (hwf.2 r hr).1 (hwf.2 r hr).2
  refine ⟨pre, post, hsplit, ?_⟩
  obtain ⟨tasks, ⟨rows, seq⟩⟩ := a
  simp only at hsplit
  subst hsplit
  exact toggle_at_row drv tasks pre post r seq _ hk hpre hpost

/-- C10 on the sample state, for the task with rowid 2. -/
theorem toggle_changes_completed_only_witness :
    ∃ pre post, twoTasks.DB.rows =
        pre ++ (⟨2, "Call home", true, "high", none, ⟨60, 0, 0⟩⟩ : Row) :: post ∧
      ToggleTaskCompletion plainDriver twoTasks (sprintfD 2) =
        (.ok (), { tasks := twoTasks.tasks,
                   DB := { rows := pre ++ (⟨2, "Call home", false, "high", none, ⟨60, 0, 0⟩⟩ : Row)
                                    :: post,
                           seq := twoTasks.DB.seq } }) :=
  toggle_changes_completed_only plainDriver twoTasks ⟨2, "Call home", true, "high", none, ⟨60, 0, 0⟩⟩
    plainDriver_readsDecimal twoTasks_wf (by decide)

/-- C8. On the id of a stored task, in a table with a primary key, two
ToggleTaskCompletion calls in a row both succeed, and the state after the
second is the state before the first: the `completed` of the task and every
other content of the store are back. -/
theorem toggle_twice (drv : Driver) (a : App) (r : Row)
    (hdrv : drv.ReadsDecimal) (hwf : a.DB.WF) (hr : r ∈ a.DB.rows) :
    ∃ a1, ToggleTaskCompletion drv a (sprintfD r.id) = (.ok (), a1) ∧
      ToggleTaskCompletion drv a1 (sprintfD r.id) = (.ok (), a) := by
  obtain ⟨pre, post, hsplit, hpre, hpost⟩ := split_at_row a.DB r hwf hr
  have hk := hdrv r.id (hwf.2 r hr).1 (hwf.2 r hr).2
  obtain ⟨tasks, ⟨rows, seq⟩⟩ := a
  simp only at hsplit
  subst hsplit
  refine ⟨_, toggle_at_row drv tasks pre post r seq _ hk hpre hpost, ?_⟩
  have h2 := toggle_at_row drv tasks pre post { r with completed := !r.completed } seq
    (sprintfD r.id) hk hpre hpost
  simp only [Bool.not_not] at h2
  exact h2

/-- C8 on the sample state, for the task with rowid 1. -/
theorem toggle_twice_witness :
    ∃ a1, ToggleTaskCompletion plainDriver twoTasks (sprintfD 1) = (.ok (), a1) ∧
      ToggleTaskCompletion plainDriver a1 (sprintfD 1) = (.ok (), twoTasks) :=
  toggle_twice plainDriver twoTasks ⟨1, "Buy milk", false, "low", some "2099-12-31", ⟨0, 0, 0⟩⟩
    plainDriver_readsDecimal twoTasks_wf (by decide)

/-- C7. On the id of a stored task, in a table with a primary key, DeleteTask
succeeds; GetTasks then returns the tasks it returned before without that one,
each with its fields as before and none with that id; and a second DeleteTask
on the id fails with `task not found`, a not-found error. -/
theorem delete_removes_task (drv : Driver) (a : App) (r : Row)
    (hdrv : drv.ReadsDecimal) (hwf : a.DB.WF) (hr : r ∈ a.DB.rows) :
    ∃ a1 pre post,
      DeleteTask drv a (sprintfD r.id) = (.ok (), a1) ∧
      GetTasks drv a = .ok (pre ++ scanRow drv r :: post) ∧
      GetTasks drv a1 = .ok (pre ++ post) ∧
      (∀ t ∈ pre ++ post, t.ID ≠ sprintfD r.id) ∧
      DeleteTask drv a1 (sprintfD r.id) = (.error .taskNotFound, a1) ∧
      Err.taskNotFound.kind = .notFound := by
  obtain ⟨pre, post, hsplit, hpre, hpost⟩ := split_at_row a.DB r hwf hr
  have hk := hdrv r.id (hwf.2 r hr).1 (hwf.2 r hr).2
  obtain ⟨tasks, ⟨rows, seq⟩⟩ := a
  simp only at hsplit
  subst hsplit
  have hother : ∀ x ∈ pre ++ post, x.id ≠ r.id := by
    intro x hx
    rcases List.mem_append.mp hx with h | h
    · exact hpre x h
    · exact hpost x h
  refine ⟨_, pre.map (scanRow drv), post.map (scanRow drv),
    delete_at_row drv tasks pre post r seq _ hk hpre hpost, ?_, ?_, ?_, ?_, rfl⟩
  · simp only [GetTasks, List.map_append, List.map_cons]
  · simp only [GetTasks, List.map_append]
  · intro t ht
    rw [← List.map_append] at ht
    obtain ⟨x, hx, rfl⟩ := List.mem_map.mp ht
    intro he
    exact hother x hx (sprintfD_injective _ _ he)
  · refine (no_match_leaves_state drv _ (sprintfD r.id) ?_).2
    intro x hx
    rw [hk]
    intro he
    exact hother x hx (Option.some.inj he).symm

/-- C7 on the sample state, for the task with rowid 1. -/
theorem delete_removes_task_witness :
    ∃ a1 pre post,
      DeleteTask plainDriver twoTasks (sprintfD 1) = (.ok (), a1) ∧
      GetTasks plainDriver twoTasks = .ok (pre ++ scanRow plainDriver
        ⟨1, "Buy milk", false, "low", some "2099-12-31", ⟨0, 0, 0⟩⟩ :: post) ∧
      GetTasks plainDriver a1 = .ok (pre ++ post) ∧
      (∀ t ∈ pre ++ post, t.ID ≠ sprintfD 1) ∧
      DeleteTask plainDriver a1 (sprintfD 1) = (.error .taskNotFound, a1) ∧
      Err.taskNotFound.kind = .notFound :=
  delete_removes_task plainDriver twoTasks
    ⟨1, "Buy milk", false, "low", some "2099-12-31", ⟨0, 0, 0⟩⟩
    plainDriver_readsDecimal twoTasks_wf (by decide)

/-! ## Sequences of calls -/

/-- ToggleTaskCompletion leaves the sequence value. -/
theorem toggle_seq (drv : Driver) (a : App) (id : String) :
    (ToggleTaskCompletion drv a id).2.DB.seq = a.DB.seq := by
  unfold ToggleTaskCompletion
  split <;> rfl

/-- DeleteTask leaves the sequence value. -/
theorem delete_seq (drv : Driver) (a : App) (id : String) :
    (DeleteTask drv a id).2.DB.seq = a.DB.seq := by
  simp only [DeleteTask, Store.delete]
  split <;> rfl

/-- A failed AddTask returns the state it was given. -/
theorem AddTask_error_state (a a2 : App) (title priority : String) (dueDate : Option String)
    (now now2 : Time) (e : Err) (h : AddTask a title priority dueDate now now2 = (.error e, a2)) :
    a2 = a := by
  by_cases ht : title = ""
  · simp only [AddTask, ht, if_true, Prod.mk.injEq] at h
    exact h.2.symm
  · cases hd : dueDateError dueDate now with
    | some e2 =>
      rw [AddTask_of_dueDateError a title priority dueDate now now2 e2 ht hd] at h
      exact (Prod.mk.inj h).2.symm
    | none =>
      rw [AddTask_of_checked a title priority dueDate now now2 ht hd] at h
      cases hi : a.DB.insert title false (coercePriority priority) dueDate now2 with
      | error e2 =>
        rw [hi] at h
        exact (Prod.mk.inj h).2.symm
      | ok r =>
        rw [hi] at h
        simp at h

/-- One call never lowers the sequence value, and a Task it returns has the
decimal form of the new sequence value as its id, above the old one, and is
not completed. -/
theorem run_spec (drv : Driver) (a : App) (c : Call) :
    a.DB.seq ≤ (c.run drv a).1.DB.seq ∧
      ∀ t, (c.run drv a).2 = some t →
        ∃ v : Int, a.DB.seq < v ∧ v ≤ (c.run drv a).1.DB.seq ∧ t.ID = sprintfD v ∧
          t.Completed = false := by
  cases c with
  | add title priority dueDate now now2 =>
    simp only [Call.run]
    split
    · rename_i t a2 h
      obtain ⟨v, hv, _, ht, ha2, _⟩ := AddTask_ok a a2 title priority dueDate now now2 t h
      have hseq : a2.DB.seq = v := by rw [ha2]
      simp only
      refine ⟨by omega, ?_⟩
      intro t2 ht2
      simp only [Option.some.injEq] at ht2
      subst ht2
      exact ⟨v, hv, by omega, by rw [ht]; rfl, by rw [ht]; rfl⟩
    · rename_i e a2 h
      have := AddTask_error_state a a2 title priority dueDate now now2 e h
      subst this
      exact ⟨le_refl _, by simp⟩
  | toggle id =>
    simp only [Call.run, toggle_seq]
    exact ⟨le_refl _, by simp⟩
  | delete id =>
    simp only [Call.run, delete_seq]
    exact ⟨le_refl _, by simp⟩

/-- The ids that a sequence of calls returns are the decimal forms of rowids
that ascend strictly, all above the sequence value at the start. -/
theorem runCalls_ids (drv : Driver) (cs : List Call) (a : App) :
    ∃ ns : List Int, (runCalls drv a cs).2.map Task.ID = ns.map sprintfD ∧
      ns.Pairwise (· < ·) ∧ (∀ n ∈ ns, a.DB.seq < n) ∧
      ∀ t ∈ (runCalls drv a cs).2, t.Completed = false := by
  induction cs generalizing a with
  | nil => exact ⟨[], by simp [runCalls]⟩
  | cons c cs ih =>
    obtain ⟨ns, h1, h2, h3, h4⟩ := ih (c.run drv a).1
    obtain ⟨hle, hrun⟩ := run_spec drv a c
    simp only [runCalls]
    cases ht : (c.run drv a).2 with
    | none =>
      refine ⟨ns, by simpa using h1, h2, ?_, by simpa using h4⟩
      intro n hn
      have := h3 n hn
      omega
    | some t =>
      obtain ⟨v, hv1, hv2, hv3, hv4⟩ := hrun t ht
      refine ⟨v :: ns, ?_, ?_, ?_, ?_⟩
      · simp only [Option.toList, List.singleton_append, List.map_cons, hv3, h1]
      · rw [List.pairwise_cons]
        refine ⟨?_, h2⟩
        intro n hn
        have := h3 n hn
        omega
      · intro n hn
        rcases List.mem_cons.mp hn with h | h
        · omega
        · have := h3 n h
          omega
      · intro t2 ht2
        simp only [Option.toList, List.singleton_append, List.mem_cons] at ht2
        rcases ht2 with h | h
        · rw [h]; exact hv4
        · exact h4 t2 h

/-- C4. Starting from the empty store, whatever the sequence of AddTask,
ToggleTaskCompletion and DeleteTask calls, every Task that a successful AddTask
returns is not completed, and no two of the Tasks returned share an id, whether
or not the earlier one has been deleted in between. -/
theorem added_ids_fresh (drv : Driver) (cs : List Call) :
    (∀ t ∈ (runCalls drv (startup Store.fresh) cs).2, t.Completed = false) ∧
      ((runCalls drv (startup Store.fresh) cs).2.map Task.ID).Nodup := by
  obtain ⟨ns, h1, h2, _, h4⟩ := runCalls_ids drv cs (startup Store.fresh)
  refine ⟨h4, ?_⟩
  rw [h1]
  apply List.Nodup.map
  · intro m n h
    exact sprintfD_injective m n h
  · exact h2.imp (fun h => ne_of_lt h)

/-! ## Due dates on the way through the store -/

/-- A due date that passes the check is none, empty, or a date. -/
theorem storedDueDate_of_checked (dueDate : Option String) (now : Time)
    (h : dueDateError dueDate now = none) : StoredDueDate dueDate := by
  cases dueDate with
  | none => exact Or.inl rfl
  | some d =>
    by_cases hd : d = ""
    · exact Or.inr (Or.inl (by rw [hd]))
    · refine Or.inr (Or.inr ⟨d, rfl, ?_⟩)
      simp only [dueDateError, if_pos hd, parseDate] at h
      cases hp : parseCivil d with
      | none => simp [hp] at h
      | some c => rfl

/-- After a successful AddTask, GetTasks returns what it returned before and,
after it, the Task that AddTask returned with its due date as the driver scans
it; no Task of before has the id of the new one. -/
theorem AddTask_then_GetTasks (drv : Driver) (a a2 : App) (title priority : String)
    (dueDate : Option String) (now now2 : Time) (t : Task)
    (h : AddTask a title priority dueDate now now2 = (.ok t, a2)) :
    ∃ old, GetTasks drv a = .ok old ∧
      GetTasks drv a2 = .ok (old ++ [{ t with DueDate := dueDate.map drv.scanDatetime }]) ∧
      (∀ x ∈ old, x.ID ≠ t.ID) ∧
      t.Title = title ∧ t.Completed = false ∧ t.DueDate = dueDate ∧
      t.Priority = coercePriority priority := by
  obtain ⟨v, _, hrows, ht, ha2, _, _, _⟩ := AddTask_ok a a2 title priority dueDate now now2 t h
  refine ⟨a.DB.rows.map (scanRow drv), rfl, ?_, ?_, ?_⟩
  · simp only [GetTasks, ha2, List.map_append, List.map_cons, List.map_nil, ht]
    rfl
  · intro x hx
    obtain ⟨r, hr, rfl⟩ := List.mem_map.mp hx
    intro he
    rw [ht] at he
    have := sprintfD_injective _ _ he
    have := hrows r hr
    omega
  · rw [ht]
    exact ⟨rfl, rfl, rfl, rfl⟩

/-- Every row after ToggleTaskCompletion is a row of before with its rowid and
due date. -/
theorem toggle_rows (drv : Driver) (a : App) (id : String) :
    ∀ r ∈ (ToggleTaskCompletion drv a id).2.DB.rows,
      ∃ r0 ∈ a.DB.rows, r.due_date = r0.due_date ∧ r.id = r0.id := by
  intro r hr
  unfold ToggleTaskCompletion at hr
  split at hr
  · exact ⟨r, hr, rfl, rfl⟩
  · simp only [Store.updateCompleted, List.mem_map] at hr
    obtain ⟨r0, hr0, rfl⟩ := hr
    refine ⟨r0, hr0, ?_⟩
    split <;> exact ⟨rfl, rfl⟩

/-- Every row after DeleteTask is a row of before. -/
theorem delete_rows (drv : Driver) (a : App) (id : String) :
    ∀ r ∈ (DeleteTask drv a id).2.DB.rows, r ∈ a.DB.rows := by
  intro r hr
  simp only [DeleteTask, Store.delete] at hr
  split at hr <;> exact (List.mem_filter.mp hr).1

/-- One call keeps the due dates of the table within those AddTask lets in. -/
theorem run_storedDueDate (drv : Driver) (a : App) (c : Call)
    (h : ∀ r ∈ a.DB.rows, StoredDueDate r.due_date) :
    ∀ r ∈ (c.run drv a).1.DB.rows, StoredDueDate r.due_date := by
  cases c with
  | add title priority dueDate now now2 =>
    simp only [Call.run]
    split
    · rename_i t a2 hadd
      obtain ⟨v, _, _, _, ha2, _, _, hd⟩ := AddTask_ok a a2 title priority dueDate now now2 t hadd
      intro r hr
      simp only [ha2, List.mem_append, List.mem_singleton] at hr
      rcases hr with hr | hr
      · exact h r hr
      · rw [hr]
        exact storedDueDate_of_checked dueDate now hd
    · rename_i e a2 hadd
      have := AddTask_error_state a a2 title priority dueDate now now2 e hadd
      subst this
      exact h
  | toggle id =>
    intro r hr
    obtain ⟨r0, hr0, he, _⟩ := toggle_rows drv a id r hr
    rw [he]
    exact h r0 hr0
  | delete id =>
    intro r hr
    exact h r (delete_rows drv a id r hr)

/-- A sequence of calls keeps the due dates of the table within those AddTask
lets in. -/
theorem runCalls_storedDueDate (drv : Driver) (cs : List Call) (a : App)
    (h : ∀ r ∈ a.DB.rows, StoredDueDate r.due_date) :
    ∀ r ∈ (runCalls drv a cs).1.DB.rows, StoredDueDate r.due_date := by
  induction cs generalizing a with
  | nil => exact h
  | cons c cs ih => exact ih _ (run_storedDueDate drv a c h)

/-- C5, at the failing input. AddTask with the empty string as due date on the
empty store returns a Task whose due date is the empty string, which is no
date; GetTasks right after it returns the task with the due date
0001-01-01T00:00:00Z. -/
theorem roundtrip_breaks_on_empty_dueDate :
    AddTask (startup Store.fresh) "Buy milk" "low" (some "") ⟨0, 0, 0⟩ ⟨0, 0, 0⟩ =
        (.ok ⟨"1", "Buy milk", false, "low", some "", ⟨0, 0, 0⟩⟩,
         { tasks := [⟨"1", "Buy milk", false, "low", some "", ⟨0, 0, 0⟩⟩],
           DB := { rows := [⟨1, "Buy milk", false, "low", some "", ⟨0, 0, 0⟩⟩], seq := 1 } }) ∧
      GetTasks plainDriver
          (AddTask (startup Store.fresh) "Buy milk" "low" (some "") ⟨0, 0, 0⟩ ⟨0, 0, 0⟩).2 =
        .ok [⟨"1", "Buy milk", false, "low", some "0001-01-01T00:00:00Z", ⟨0, 0, 0⟩⟩] ∧
      parseCivil "" = none := by
  decide

/-- C9, as stated, fails. A task added with the due date 2099-12-31 comes back
from GetTasks with the due date 2099-12-31T00:00:00Z, which is not the text of
a date in the form YYYY-MM-DD; and the Task that AddTask returns for the empty
string as due date has the empty string as its due date, not an absent one. -/
theorem dueDate_form_counterexample :
    GetTasks plainDriver
          (AddTask (startup Store.fresh) "Buy milk" "low" (some "2099-12-31")
            ⟨0, 0, 0⟩ ⟨0, 0, 0⟩).2 =
        .ok [⟨"1", "Buy milk", false, "low", some "2099-12-31T00:00:00Z", ⟨0, 0, 0⟩⟩] ∧
      (¬ ∃ c, IsDateText "2099-12-31T00:00:00Z" c) ∧
      (AddTask (startup Store.fresh) "Buy milk" "low" (some "") ⟨0, 0, 0⟩ ⟨0, 0, 0⟩).1 =
        .ok ⟨"1", "Buy milk", false, "low", some "", ⟨0, 0, 0⟩⟩ := by
  refine ⟨by decide, ?_, by decide⟩
  rintro ⟨c, hc⟩
  have h := (parseCivil_iff _ c).mpr hc
  have hn : parseCivil "2099-12-31T00:00:00Z" = none := by decide
  rw [hn] at h
  exact Option.noConfusion h

/-- One call leaves the due date of the row of a rowid that has been given out
as it is: the row is rewritten with its due date, or deleted, and a row added
takes a rowid above it. -/
theorem run_keeps_dueDate (drv : Driver) (a : App) (c : Call) (v : Int) (d : Option String)
    (hseq : v ≤ a.DB.seq) (h : ∀ r ∈ a.DB.rows, r.id = v → r.due_date = d) :
    v ≤ (c.run drv a).1.DB.seq ∧
      ∀ r ∈ (c.run drv a).1.DB.rows, r.id = v → r.due_date = d := by
  refine ⟨le_trans hseq (run_spec drv a c).1, ?_⟩
  cases c with
  | add title priority dueDate now now2 =>
    simp only [Call.run]
    split
    · rename_i t a2 hadd
      obtain ⟨v2, hv2, _, _, ha2, _, _, _⟩ :=
        AddTask_ok a a2 title priority dueDate now now2 t hadd
      intro r hr hid
      simp only [ha2, List.mem_append, List.mem_singleton] at hr
      rcases hr with hr | hr
      · exact h r hr hid
      · rw [hr] at hid
        simp only [newRow] at hid
        omega
    · rename_i e a2 hadd
      have := AddTask_error_state a a2 title priority dueDate now now2 e hadd
      subst this
      exact h
  | toggle id =>
    intro r hr hid
    obtain ⟨r0, hr0, he, hi⟩ := toggle_rows drv a id r hr
    rw [he]
    exact h r0 hr0 (by rw [← hi]; exact hid)
  | delete id =>
    intro r hr hid
    exact h r (delete_rows drv a id r hr) hid

/-- A sequence of calls leaves the due date of the row of a rowid that has been
given out as it is. -/
theorem runCalls_keeps_dueDate (drv : Driver) (cs : List Call) (a : App) (v : Int)
    (d : Option String) (hseq : v ≤ a.DB.seq)
    (h : ∀ r ∈ a.DB.rows, r.id = v → r.due_date = d) :
    ∀ r ∈ (runCalls drv a cs).1.DB.rows, r.id = v → r.due_date = d := by
  induction cs generalizing a with
  | nil => exact h
  | cons c cs ih =>
    obtain ⟨h1, h2⟩ := run_keeps_dueDate drv a c v d hseq h
    exact ih _ h1 h2

/-- C9, amended. Starting from the empty store, after every sequence of
AddTask, ToggleTaskCompletion and DeleteTask calls, GetTasks succeeds, and every
task it returns whose stored due date is not the empty string has a due date
that is absent or is the text of a date in the form YYYY-MM-DD followed by
`T00:00:00Z`; and a task added then with an absent due date has an absent due
date in the Task that AddTask returns, is returned as that very Task by the
GetTasks that follows, and has an absent due date in GetTasks after every
further sequence of calls. -/
theorem dueDates_after_calls (drv : Driver) (hdrv : drv.ScansDates) (cs : List Call) :
    (GetTasks drv (runCalls drv (startup Store.fresh) cs).1 =
        .ok ((runCalls drv (startup Store.fresh) cs).1.DB.rows.map (scanRow drv)) ∧
      ∀ r ∈ (runCalls drv (startup Store.fresh) cs).1.DB.rows,
        r.due_date = some "" ∨ (scanRow drv r).DueDate = none ∨
          ∃ d c, IsDateText d c ∧ (scanRow drv r).DueDate = some (d ++ "T00:00:00Z")) ∧
    ∀ (title priority : String) (now now2 : Time) (t : Task) (a2 : App),
      AddTask (runCalls drv (startup Store.fresh) cs).1 title priority none now now2
          = (.ok t, a2) →
        t.DueDate = none ∧
          (∃ old, GetTasks drv (runCalls drv (startup Store.fresh) cs).1 = .ok old ∧
            GetTasks drv a2 = .ok (old ++ [t]) ∧ ∀ x ∈ old, x.ID ≠ t.ID) ∧
          ∀ (cs2 : List Call) (ts : List Task),
            GetTasks drv (runCalls drv a2 cs2).1 = .ok ts →
              ∀ x ∈ ts, x.ID = t.ID → x.DueDate = none := by
  refine ⟨⟨rfl, ?_⟩, ?_⟩
  · intro r hr
    have h := runCalls_storedDueDate drv cs (startup Store.fresh)
      (by intro r hr; simp [startup, Store.fresh] at hr) r hr
    rcases h with h | h | ⟨d, hd, hp⟩
    · exact Or.inr (Or.inl (by simp [scanRow, h]))
    · exact Or.inl h
    · obtain ⟨c, hc⟩ := Option.isSome_iff_exists.mp hp
      refine Or.inr (Or.inr ⟨d, c, (parseCivil_iff d c).mp hc, ?_⟩)
      simp only [scanRow, hd, Option.map_some', hdrv.1 d hp]
  · intro title priority now now2 t a2 h
    obtain ⟨old, h1, h2, h3, _, _, h4, _⟩ :=
      AddTask_then_GetTasks drv _ a2 title priority none now now2 t h
    refine ⟨h4, ⟨old, h1, ?_, h3⟩, ?_⟩
    · rw [h2]
      have : ({ t with DueDate := Option.map drv.scanDatetime none } : Task) = t := by
        cases t
        simp only [Option.map_none'] at h4 ⊢
        simp only [Task.mk.injEq, true_and, and_true]
        exact h4.symm
      rw [this]
    · obtain ⟨v, _, hrows, ht, ha2, _, _, _⟩ := AddTask_ok _ a2 title priority none now now2 t h
      intro cs2 ts hts x hx hid
      simp only [GetTasks, Except.ok.injEq] at hts
      subst hts
      obtain ⟨r, hr, rfl⟩ := List.mem_map.mp hx
      have hrv : r.id = v := by
        rw [ht] at hid
        exact sprintfD_injective _ _ hid
      have hkeep := runCalls_keeps_dueDate drv cs2 a2 v none (by rw [ha2]) (by
        intro r0 hr0 hid0
        simp only [ha2, List.mem_append, List.mem_singleton] at hr0
        rcases hr0 with hr0 | hr0
        · have := hrows r0 hr0
          omega
        · rw [hr0]
          rfl) r hr hrv
      simp only [scanRow, hkeep, Option.map_none']

/-- C9, amended, for the sample sequence of calls. -/
theorem dueDates_after_calls_witness :
    (GetTasks plainDriver (runCalls plainDriver (startup Store.fresh) sampleCalls).1 =
        .ok ((runCalls plainDriver (startup Store.fresh) sampleCalls).1.DB.rows.map
          (scanRow plainDriver)) ∧
      ∀ r ∈ (runCalls plainDriver (startup Store.fresh) sampleCalls).1.DB.rows,
        r.due_date = some "" ∨ (scanRow plainDriver r).DueDate = none ∨
          ∃ d c, IsDateText d c ∧
            (scanRow plainDriver r).DueDate = some (d ++ "T00:00:00Z")) ∧
    ∀ (title priority : String) (now now2 : Time) (t : Task) (a2 : App),
      AddTask (runCalls plainDriver (startup Store.fresh) sampleCalls).1 title priority none
          now now2 = (.ok t, a2) →
        t.DueDate = none ∧
          (∃ old, GetTasks plainDriver (runCalls plainDriver (startup Store.fresh) sampleCalls).1
              = .ok old ∧
            GetTasks plainDriver a2 = .ok (old ++ [t]) ∧ ∀ x ∈ old, x.ID ≠ t.ID) ∧
          ∀ (cs2 : List Call) (ts : List Task),
            GetTasks plainDriver (runCalls plainDriver a2 cs2).1 = .ok ts →
              ∀ x ∈ ts, x.ID = t.ID → x.DueDate = none :=
  dueDates_after_calls plainDriver plainDriver_scansDates sampleCalls

/-! ## The primary key along a sequence of calls -/

/-- The rowid an insert takes is a 64-bit rowid. -/
theorem newRowid_le_max (s : Store) (v : Int) (hseq : s.seq ≤ MAX_ROWID)
    (hmin : ∀ r ∈ s.rows, MIN_ROWID ≤ r.id) (h : s.newRowid = .ok v) :
    MIN_ROWID ≤ v ∧ v ≤ MAX_ROWID := by
  unfold Store.newRowid at h
  split at h
  · split at h
    · simp at h
    · simp only [Except.ok.injEq] at h
      simp only [MIN_ROWID, MAX_ROWID] at *
      omega
  · rename_i r rs hr
    split at h
    · simp at h
    · split at h
      · simp at h
      · simp only [Except.ok.injEq] at h
        have h1 := (le_foldl_max rs r.id).1
        have h2 := hmin r (by rw [hr]; exact List.mem_cons_self _ _)
        simp only [lastRowid, MIN_ROWID, MAX_ROWID] at *
        omega

/-- ToggleTaskCompletion leaves the rowids of the table, in their order. -/
theorem toggle_ids (drv : Driver) (a : App) (id : String) :
    (ToggleTaskCompletion drv a id).2.DB.rows.map Row.id = a.DB.rows.map Row.id := by
  unfold ToggleTaskCompletion
  split
  · rfl
  · simp only [Store.updateCompleted, List.map_map]
    apply List.map_congr_left
    intro r _
    simp only [Function.comp]
    split <;> rfl

/-- The sequence value after a successful AddTask is the rowid the insert took. -/
theorem AddTask_ok_newRowid (a a2 : App) (title priority : String) (dueDate : Option String)
    (now now2 : Time) (t : Task)
    (h : AddTask a title priority dueDate now now2 = (.ok t, a2)) :
    a.DB.newRowid = .ok a2.DB.seq := by
  obtain ⟨_, _, _, _, _, _, ht, hd⟩ := AddTask_ok a a2 title priority dueDate now now2 t h
  rw [AddTask_of_checked a title priority dueDate now now2 ht hd] at h
  unfold Store.insert at h
  cases hv : a.DB.newRowid with
  | error e =>
    rw [hv] at h
    simp at h
  | ok v =>
    rw [hv] at h
    simp only [priorityCheck_coercePriority, if_true, Prod.mk.injEq, Except.ok.injEq] at h
    rw [← h.2]

/-- One call keeps the table a table with a primary key of 64-bit rowids, and
the sequence value within 64 bits. -/
theorem run_wf (drv : Driver) (a : App) (c : Call) (hwf : a.DB.WF)
    (hseq : a.DB.seq ≤ MAX_ROWID) :
    (c.run drv a).1.DB.WF ∧ (c.run drv a).1.DB.seq ≤ MAX_ROWID := by
  cases c with
  | add title priority dueDate now now2 =>
    simp only [Call.run]
    split
    · rename_i t a2 hadd
      obtain ⟨v, _, hrows, _, ha2, _, ht, hd⟩ :=
        AddTask_ok a a2 title priority dueDate now now2 t hadd
      have hv : a.DB.newRowid = .ok v := by
        have := AddTask_ok_newRowid a a2 title priority dueDate now now2 t hadd
        rw [ha2] at this
        exact this
      obtain ⟨hv1, hv2⟩ := newRowid_le_max a.DB v hseq (fun r hr => (hwf.2 r hr).1) hv
      simp only [ha2]
      refine ⟨⟨?_, ?_⟩, hv2⟩
      · rw [List.map_append, List.pairwise_append]
        refine ⟨hwf.1, by simp, ?_⟩
        intro x hx y hy
        obtain ⟨r, hr, rfl⟩ := List.mem_map.mp hx
        simp only [List.map_cons, List.map_nil, List.mem_singleton, newRow] at hy
        rw [hy]
        exact hrows r hr
      · intro r hr
        rcases List.mem_append.mp hr with h | h
        · exact hwf.2 r h
        · simp only [List.mem_singleton] at h
          rw [h]
          exact ⟨hv1, hv2⟩
    · rename_i e a2 hadd
      have := AddTask_error_state a a2 title priority dueDate now now2 e hadd
      subst this
      exact ⟨hwf, hseq⟩
  | toggle id =>
    simp only [Call.run, toggle_seq]
    refine ⟨⟨?_, ?_⟩, hseq⟩
    · rw [toggle_ids]
      exact hwf.1
    · intro r hr
      obtain ⟨r0, hr0, _, hid⟩ := toggle_rows drv a id r hr
      rw [hid]
      exact hwf.2 r0 hr0
  | delete id =>
    simp only [Call.run, delete_seq]
    refine ⟨⟨?_, ?_⟩, hseq⟩
    · have hsub : (DeleteTask drv a id).2.DB.rows.Sublist a.DB.rows := by
        simp only [DeleteTask, Store.delete]
        split <;> exact List.filter_sublist _
      exact hwf.1.sublist (hsub.map Row.id)
    · intro r hr
      exact hwf.2 r (delete_rows drv a id r hr)

/-- Starting from the empty store, every sequence of calls leaves a table with
a primary key of 64-bit rowids: the premise of C7, C8 and C10 holds in every
state the program reaches. -/
theorem runCalls_wf (drv : Driver) (cs : List Call) :
    (runCalls drv (startup Store.fresh) cs).1.DB.WF := by
  have hgen : ∀ (cs : List Call) (a : App), a.DB.WF → a.DB.seq ≤ MAX_ROWID →
      (runCalls drv a cs).1.DB.WF := by
    intro cs
    induction cs with
    | nil => intro a h _; exact h
    | cons c cs ih =>
      intro a h1 h2
      obtain ⟨h3, h4⟩ := run_wf drv a c h1 h2
      exact ih _ h3 h4
  exact hgen cs _ (by decide) (by decide)

end TodoApp
